import Mathlib

/-!
Verification of the progressive PDF question-extraction pipeline
(`did-exit`): chunk planner, response normalizer, persistence layer,
orchestrator and background scheduler, shallowly embedded from the
JavaScript sources (`src/js/batch-processor.js`, `src/js/ai-integration.js`,
and the IndexedDB `DatabaseManager`).

Strings are modelled as `List Char`; JS numbers as `Nat`/`Int` (the only
fractional constant, the `0.3` small-trailing-chunk factor, is embedded as
the exact integer comparison `10 * r < 3 * w`); host builtins that are not
repository code (`JSON.parse`, the regex engine used inside the response
normalizer, `crypto.subtle.digest`, `Date.now`) are passed in as explicit
function parameters, while every regular expression whose match COUNT the
planner uses is modelled directly.  JS exceptions are modelled with
`Except`.
-/

set_option maxHeartbeats 1000000

namespace DidExit

/-! ### JS character classes

`isWs` models the JS regex class `\s` (also the separator class of
`String.prototype.trim` / `split(/\s+/)`). -/

def isWs (c : Char) : Bool :=
  c = ' ' ∨ c = '\t' ∨ c = '\n' ∨ c = '\r' ∨ c = '\x0b' ∨ c = '\x0c' ∨
  c.val = 0xa0 ∨ c.val = 0x1680 ∨ (0x2000 ≤ c.val ∧ c.val ≤ 0x200a) ∨
  c.val = 0x2028 ∨ c.val = 0x2029 ∨ c.val = 0x202f ∨ c.val = 0x205f ∨
  c.val = 0x3000 ∨ c.val = 0xfeff

def isDigit (c : Char) : Bool := '0' ≤ c ∧ c ≤ '9'

def isUpper (c : Char) : Bool := 'A' ≤ c ∧ c ≤ 'Z'

/-- The option-letter class `[A-Ea-e]` of the planner's multiple-choice
marker regexes. -/
def isOptLetter (c : Char) : Bool :=
  ('A' ≤ c ∧ c ≤ 'E') ∨ ('a' ≤ c ∧ c ≤ 'e')

/-- Length of the maximal prefix of `s` whose characters satisfy `p`
(the "max-munch" of a `\d+` / `\s+` style sub-pattern). -/
def takeLen (p : Char → Bool) (s : List Char) : Nat := (s.takeWhile p).length

/-! ### `textContent.split(/\s+/)`

`tokens s` lists the maximal non-whitespace runs of `s` in order.
JS `split(/\s+/)` additionally yields an empty string at either end when
the input starts/ends with whitespace (and `"".split(/\s+/)` is `[""]`);
`jsSplitWs` reproduces exactly that. -/

def tokensAcc : List Char → List Char → List (List Char)
  | [], acc => if acc.isEmpty then [] else [acc.reverse]
  | c :: s, acc =>
    if isWs c then (if acc.isEmpty then [] else [acc.reverse]) ++ tokensAcc s []
    else tokensAcc s (c :: acc)

def tokens (s : List Char) : List (List Char) := tokensAcc s []

theorem tokens_nil : tokens [] = [] := rfl

theorem tokens_cons_ws (c : Char) (s : List Char) (hc : isWs c = true) :
    tokens (c :: s) = tokens s := by
  simp [tokens, tokensAcc, hc]

theorem tokensAcc_cons_acc (s : List Char) : ∀ a acc,
    tokensAcc s (a :: acc) =
      ((a :: acc).reverse ++ s.takeWhile (fun d => !isWs d))
        :: tokens (s.dropWhile (fun d => !isWs d)) := by
  induction s with
  | nil => intro a acc; simp [tokensAcc, tokens_nil]
  | cons d s ih =>
    intro a acc
    by_cases hd : isWs d
    · simp [tokensAcc, hd, tokens, List.takeWhile_cons, List.dropWhile_cons]
    · rw [show tokensAcc (d :: s) (a :: acc) = tokensAcc s (d :: a :: acc) by
          simp [tokensAcc, hd],
        ih d (a :: acc)]
      simp [List.takeWhile_cons, List.dropWhile_cons, hd]

theorem tokens_cons_nonWs (c : Char) (s : List Char) (hc : isWs c = false) :
    tokens (c :: s) =
      (c :: s.takeWhile (fun d => !isWs d)) :: tokens (s.dropWhile (fun d => !isWs d)) := by
  simp [tokens, tokensAcc, hc, tokensAcc_cons_acc]

/-- Induction along the run structure of `tokens`. -/
theorem tokens_induction (P : List Char → Prop) (h0 : P [])
    (hws : ∀ c s, isWs c = true → P s → P (c :: s))
    (hnw : ∀ c s, isWs c = false → P (s.dropWhile (fun d => !isWs d)) → P (c :: s)) :
    ∀ s, P s := by
  have key : ∀ n (s : List Char), s.length ≤ n → P s := by
    intro n
    induction n with
    | zero =>
      intro s h
      match s with
      | [] => exact h0
    | succ n ih =>
      intro s h
      match s with
      | [] => exact h0
      | c :: s' =>
        rcases hc : isWs c with _ | _
        · refine hnw c s' hc (ih _ ?_)
          have hsub : (s'.dropWhile (fun d => !isWs d)).length ≤ s'.length :=
            ((List.dropWhile_suffix _).sublist).length_le
          simp only [List.length_cons] at h
          omega
        · refine hws c s' hc (ih s' ?_)
          simp only [List.length_cons] at h
          omega
  exact fun s => key s.length s (Nat.le_refl _)

def jsSplitWs (s : List Char) : List (List Char) :=
  match s with
  | [] => [[]]
  | c :: rest =>
    (if isWs c then [[]] else []) ++ tokens (c :: rest) ++
      (if isWs ((c :: rest).getLast (by simp)) then [[]] else [])

/-- `words.join(" ")`. -/
def joinSp (ws : List (List Char)) : List Char := List.intercalate [' '] ws

/-! ### Counting the matches of the planner's global regexes

`estimateQuestionCount` (batch-processor.js:47-86) only uses
`textContent.match(re).length` for six fixed regexes.  A JS global match
scans left to right: at each position it attempts the pattern, and on a
match of length `n ≥ 1` resumes right after the match (none of the six
patterns can match the empty string).  `scanCount` is that scan; `prev` is
the character just before the current position, used by the `^` multiline
anchor.  Each of the six patterns is simple enough that its greedy
sub-patterns never need backtracking into a `+`/`*` (each quantified class
is disjoint from what follows), except the trailing `\s*$` of `/\?\s*$/m`,
whose backtracking is resolved in closed form in `mQmarkEol`. -/

def scanCount (f : Option Char → List Char → Option Nat) :
    Nat → Option Char → List Char → Nat
  | 0, _, _ => 0
  | _ + 1, _, [] => 0
  | fuel + 1, prev, c :: rest =>
    match f prev (c :: rest) with
    | some n =>
      if n = 0 then 0
      else 1 + scanCount f fuel (some ((c :: rest).getD (n - 1) c)) ((c :: rest).drop n)
    | none => scanCount f fuel (some c) rest

def countMatches (f : Option Char → List Char → Option Nat) (s : List Char) : Nat :=
  scanCount f s.length none s

/-- Is the scan position at the start of a line (`^` with the `m` flag)? -/
def bol (prev : Option Char) : Bool :=
  match prev with
  | none => true
  | some c => c = '\n'

/-- `/\d+[\.\)]\s+[A-Z]/g` — "1. Question" or "1) Question". -/
def mNumberedQ (_ : Option Char) (s : List Char) : Option Nat :=
  let d := takeLen isDigit s
  if d = 0 then none else
  match s.drop d with
  | c :: r1 =>
    if c = '.' ∨ c = ')' then
      let w := takeLen isWs r1
      if w = 0 then none else
      match r1.drop w with
      | u :: _ => if isUpper u then some (d + 1 + w + 1) else none
      | [] => none
    else none
  | [] => none

def toLowerCh (c : Char) : Char :=
  if 'A' ≤ c ∧ c ≤ 'Z' then Char.ofNat (c.toNat + 32) else c

/-- `/Question\s+\d+/gi`. -/
def mQuestionN (_ : Option Char) (s : List Char) : Option Nat :=
  if (s.take 8).map toLowerCh = "question".toList then
    let r := s.drop 8
    let w := takeLen isWs r
    if w = 0 then none else
    let d := takeLen isDigit (r.drop w)
    if d = 0 then none else some (8 + w + d)
  else none

/-- `/^\s*\d+\.\s+/gm` — numbered items starting lines. -/
def mNumberedLine (prev : Option Char) (s : List Char) : Option Nat :=
  if bol prev then
    let w := takeLen isWs s
    let r1 := s.drop w
    let d := takeLen isDigit r1
    if d = 0 then none else
    match r1.drop d with
    | '.' :: r2 =>
      let e := takeLen isWs r2
      if e = 0 then none else some (w + d + 1 + e)
    | _ => none
  else none

/-- Index of the last occurrence of `c` in `l`. -/
def lastIdxOf (c : Char) (l : List Char) : Option Nat :=
  match l.reverse.findIdx? (· = c) with
  | some i => some (l.length - 1 - i)
  | none => none

/-- `/\?\s*$/gm` — lines ending with `?`.  After the literal `?`, the
greedy `\s*` backtracks to the longest whitespace prefix that ends at the
end of the string or just before a `'\n'`. -/
def mQmarkEol (_ : Option Char) (s : List Char) : Option Nat :=
  match s with
  | '?' :: r =>
    let m := takeLen isWs r
    if r.drop m = [] then some (1 + m)
    else
      match lastIdxOf '\n' (r.take m) with
      | some k => some (1 + k)
      | none => none
  | _ => none

/-- `/^\s*[A-Ea-e][\.\)]/gm` — "A." / "b)" style option markers. -/
def mOptDot (prev : Option Char) (s : List Char) : Option Nat :=
  if bol prev then
    let w := takeLen isWs s
    match s.drop w with
    | c :: d :: _ =>
      if isOptLetter c ∧ (d = '.' ∨ d = ')') then some (w + 2) else none
    | _ => none
  else none

/-- `/^\s*\([A-Ea-e]\)/gm` — "(A)" style option markers. -/
def mOptParen (prev : Option Char) (s : List Char) : Option Nat :=
  if bol prev then
    let w := takeLen isWs s
    match s.drop w with
    | '(' :: c :: ')' :: _ => if isOptLetter c then some (w + 3) else none
    | _ => none
  else none

/-- `estimateQuestionCount` (batch-processor.js:47-86). -/
def estimateQuestionCount (textContent : List Char) : Nat :=
  let maxCount :=
    max (max (countMatches mNumberedQ textContent) (countMatches mQuestionN textContent))
      (max (countMatches mNumberedLine textContent) (countMatches mQmarkEol textContent))
  let optionCount :=
    countMatches mOptDot textContent + countMatches mOptParen textContent
  let mcQuestionEstimate := optionCount / 4
  min 150 (max 10 (max maxCount mcQuestionEstimate))

/-! ### The chunk planner (batch-processor.js:15-159) -/

structure Chunk where
  content : List Char
  batchNumber : Nat
  isFirstBatch : Bool
  wordsCount : Option Nat := none
  isMergedLastBatch : Bool := false
  hasAppendedContent : Bool := false
deriving Repr, DecidableEq

/-- The `for (let i = 0; i < words.length; i += wordsPerChunk)` loop of
`createMultipleBatches` (batch-processor.js:108-153).  Each iteration either
`break`s or pushes exactly one chunk, and the loop `break`s as soon as
`chunks.length >= targetBatches`, so `targetBatches` iterations of fuel are
enough to replay every JS execution (this also covers `wordsPerChunk = 0`,
where the JS loop relies on that `break` to terminate).
`remainingWords < wordsPerChunk * 0.3` is embedded exactly as
`10 * remainingWords < 3 * wordsPerChunk` over `Int`
(`remainingWords` can be negative in JS when `i + wordsPerChunk`
overshoots). -/
def cmbLoop (words : List (List Char)) (wordsPerChunk targetBatches : Nat) :
    Nat → Nat → List Chunk → List Chunk
  | 0, _, chunks => chunks
  | fuel + 1, i, chunks =>
    if i < words.length then
      let chunkWords := (words.drop i).take wordsPerChunk
      let chunkContent := joinSp chunkWords
      let remainingWords : Int := (words.length : Int) - ((i : Int) + (wordsPerChunk : Int))
      if 10 * remainingWords < 3 * (wordsPerChunk : Int) ∧ remainingWords > 0 then
        -- merge remaining words into the current chunk: tiny last batch avoided
        let allRemainingWords := words.drop i
        chunks ++ [{ content := joinSp allRemainingWords,
                     batchNumber := chunks.length + 1,
                     isFirstBatch := chunks.length = 0,
                     wordsCount := some allRemainingWords.length,
                     isMergedLastBatch := true }]
      else
        if chunks.length + 1 ≥ targetBatches then
          -- pushed chunk reaches the target count: append any remaining words
          -- to that just-pushed chunk, then break
          if i + wordsPerChunk < words.length then
            let remaining := words.drop (i + wordsPerChunk)
            chunks ++ [{ content := chunkContent ++ ' ' :: joinSp remaining,
                         batchNumber := chunks.length + 1,
                         isFirstBatch := chunks.length = 0,
                         wordsCount := some (chunkWords.length + remaining.length),
                         hasAppendedContent := true }]
          else
            chunks ++ [{ content := chunkContent,
                         batchNumber := chunks.length + 1,
                         isFirstBatch := chunks.length = 0,
                         wordsCount := some chunkWords.length }]
        else
          cmbLoop words wordsPerChunk targetBatches fuel (i + wordsPerChunk)
            (chunks ++ [{ content := chunkContent,
                          batchNumber := chunks.length + 1,
                          isFirstBatch := chunks.length = 0,
                          wordsCount := some chunkWords.length }])
    else chunks

/-- `createMultipleBatches` (batch-processor.js:89-159). -/
def createMultipleBatches (textContent : List Char) (estimatedQuestions : Nat) :
    List Chunk :=
  let questionsPerBatch := 20
  let targetBatches :=
    min 5 (max 2 ((estimatedQuestions + questionsPerBatch - 1) / questionsPerBatch))
  let words := jsSplitWs textContent
  let estimatedWords := words.length
  let wordsPerChunk := estimatedWords / targetBatches
  cmbLoop words wordsPerChunk targetBatches targetBatches 0 []

/-- `createTextChunks` (batch-processor.js:15-44). -/
def createTextChunks (textContent : List Char) : List Chunk :=
  let estimatedQuestions := estimateQuestionCount textContent
  if estimatedQuestions > 20 ∨ textContent.length > 20000 then
    createMultipleBatches textContent estimatedQuestions
  else if textContent.length < 20000 ∧ estimatedQuestions ≤ 10 then
    [{ content := textContent, batchNumber := 1, isFirstBatch := true }]
  else
    createMultipleBatches textContent estimatedQuestions

/-! ### Word-level structure of the planner output (towards claim C2) -/

theorem takeWhile_append_stop (p : Char → Bool) (x : Char) (h : p x = false)
    (a b : List Char) : (a ++ x :: b).takeWhile p = a.takeWhile p := by
  induction a with
  | nil => simp [List.takeWhile_cons, h]
  | cons c a ih => by_cases hc : p c <;> simp [List.takeWhile_cons, hc, ih]

theorem dropWhile_append_stop (p : Char → Bool) (x : Char) (h : p x = false)
    (a b : List Char) : (a ++ x :: b).dropWhile p = a.dropWhile p ++ x :: b := by
  induction a with
  | nil => simp [List.dropWhile_cons, h]
  | cons c a ih => by_cases hc : p c <;> simp [List.dropWhile_cons, hc, ih]

/-- A single space merges no runs: tokenizing around an explicit `' '`
separator splits cleanly. -/
theorem tokens_append_space (a b : List Char) :
    tokens (a ++ ' ' :: b) = tokens a ++ tokens b := by
  induction a using tokens_induction with
  | h0 =>
    rw [List.nil_append, tokens_cons_ws ' ' b (by decide), tokens_nil, List.nil_append]
  | hws c s hc ih =>
    rw [List.cons_append, tokens_cons_ws c _ hc, tokens_cons_ws c s hc, ih]
  | hnw c s hc ih =>
    have ht := takeWhile_append_stop (fun d => !isWs d) ' ' (by decide) s b
    have hd := dropWhile_append_stop (fun d => !isWs d) ' ' (by decide) s b
    rw [List.cons_append, tokens_cons_nonWs c _ hc, tokens_cons_nonWs c s hc, ht, hd, ih]
    simp

theorem tokens_eq_single {w : List Char} (hne : w ≠ [])
    (hnws : ∀ c ∈ w, isWs c = false) : tokens w = [w] := by
  match w, hne with
  | c :: s, _ =>
    have hc : isWs c = false := hnws c (by simp)
    have hs : s.takeWhile (fun d => !isWs d) = s :=
      List.takeWhile_eq_self_iff.mpr (fun d hd => by simp [hnws d (by simp [hd])])
    have hs' : s.dropWhile (fun d => !isWs d) = [] :=
      List.dropWhile_eq_nil_iff.mpr (fun d hd => by simp [hnws d (by simp [hd])])
    rw [tokens_cons_nonWs c s hc, hs, hs', tokens_nil]

theorem tokens_mem_ne_nil {s w : List Char} (h : w ∈ tokens s) : w ≠ [] := by
  induction s using tokens_induction with
  | h0 => rw [tokens_nil] at h; simp at h
  | hws c s hc ih => rw [tokens_cons_ws c s hc] at h; exact ih h
  | hnw c s hc ih =>
    rw [tokens_cons_nonWs c s hc] at h
    rcases List.mem_cons.mp h with h | h
    · simp [h]
    · exact ih h

theorem tokens_mem_nonWs {s w : List Char} (h : w ∈ tokens s) :
    ∀ c ∈ w, isWs c = false := by
  induction s using tokens_induction with
  | h0 => rw [tokens_nil] at h; simp at h
  | hws c s hc ih => rw [tokens_cons_ws c s hc] at h; exact ih h
  | hnw c s hc ih =>
    rw [tokens_cons_nonWs c s hc] at h
    rcases List.mem_cons.mp h with h | h
    · subst h
      intro d hd
      rcases List.mem_cons.mp hd with h | h
      · simp only [h]; exact hc
      · have := List.mem_takeWhile_imp h
        simpa using this
    · exact ih h

/-- Tokenizing a `join(" ")` yields the tokens of the parts, in order. -/
theorem tokens_joinSp (L : List (List Char)) :
    tokens (joinSp L) = (L.map tokens).flatten := by
  induction L with
  | nil => simp [joinSp, List.intercalate, tokens_nil]
  | cons w rest ih =>
    match rest with
    | [] => simp [joinSp, List.intercalate]
    | v :: rest' =>
      have hj : joinSp (w :: v :: rest') = w ++ ' ' :: joinSp (v :: rest') := by
        simp [joinSp, List.intercalate, List.intersperse_cons_cons, List.append_assoc]
      rw [hj, tokens_append_space, ih]
      simp

/-- `split(/\s+/)` only adds boundary empties around the token list. -/
theorem jsSplitWs_tokens_flatten (s : List Char) :
    ((jsSplitWs s).map tokens).flatten = tokens s := by
  have hall : ∀ L : List (List Char), (∀ w ∈ L, w ∈ tokens s) →
      (L.map tokens).flatten = L := by
    intro L
    induction L with
    | nil => simp
    | cons w L ih =>
      intro h
      have hw := h w (by simp)
      rw [List.map_cons, List.flatten_cons,
        tokens_eq_single (tokens_mem_ne_nil hw) (tokens_mem_nonWs hw),
        ih (fun v hv => h v (by simp [hv]))]
      simp
  have hpre : ∀ t : Bool, (((if t then [[]] else []) : List (List Char)).map tokens).flatten = [] := by
    intro t; cases t <;> simp [tokens_nil]
  match s with
  | [] => simp [jsSplitWs, tokens_nil]
  | c :: rest =>
    rw [jsSplitWs]
    simp only [List.map_append, List.flatten_append, hpre, List.nil_append, List.append_nil]
    exact hall (tokens (c :: rest)) (fun w hw => hw)

theorem drop_take_tokens (words : List (List Char)) (i w : Nat) :
    (((words.drop i).take w).map tokens).flatten ++ ((words.drop (i + w)).map tokens).flatten
      = ((words.drop i).map tokens).flatten := by
  rw [show i + w = i + w from rfl, ← List.drop_drop, ← List.flatten_append,
    ← List.map_append, List.take_append_drop]

/-- Through the `createMultipleBatches` loop, the tokens of the produced
chunk contents are exactly the accumulated tokens plus the tokens of the
not-yet-consumed words: nothing is lost and nothing is duplicated.  The
fuel hypotheses mirror the JS `break` at `chunks.length >= targetBatches`,
which bounds the loop at `targetBatches` iterations. -/
theorem cmbLoop_tokens (words : List (List Char)) (w tb : Nat) :
    ∀ fuel i (chunks : List Chunk), chunks.length < tb → tb ≤ chunks.length + fuel →
    ((cmbLoop words w tb fuel i chunks).map (fun c => tokens c.content)).flatten
      = (chunks.map (fun c => tokens c.content)).flatten
        ++ ((words.drop i).map tokens).flatten := by
  intro fuel
  induction fuel with
  | zero => intro i chunks h1 h2; omega
  | succ fuel ih =>
    intro i chunks h1 h2
    rw [cmbLoop]
    by_cases hi : i < words.length
    · rw [if_pos hi]
      by_cases hm : 10 * ((words.length : Int) - ((i : Int) + (w : Int))) < 3 * (w : Int)
          ∧ (words.length : Int) - ((i : Int) + (w : Int)) > 0
      · rw [if_pos hm]
        simp [tokens_joinSp]
      · rw [if_neg hm]
        by_cases htb : chunks.length + 1 ≥ tb
        · rw [if_pos htb]
          by_cases hiw : i + w < words.length
          · rw [if_pos hiw]
            simp only [List.map_append, List.flatten_append, List.map_cons,
              List.map_nil, List.flatten_cons, List.flatten_nil, List.append_nil,
              tokens_append_space, tokens_joinSp]
            rw [drop_take_tokens]
          · rw [if_neg hiw]
            have hdi : (words.drop i).take w = words.drop i :=
              List.take_of_length_le (by rw [List.length_drop]; omega)
            simp [tokens_joinSp, hdi]
        · rw [if_neg htb]
          rw [ih (i + w) _ (by simpa using Nat.lt_of_not_le (by simpa using htb))
            (by simp; omega)]
          simp only [List.map_append, List.flatten_append, List.map_cons,
            List.map_nil, List.flatten_cons, List.flatten_nil, List.append_nil,
            tokens_joinSp]
          rw [List.append_assoc, drop_take_tokens]
    · rw [if_neg hi]
      have : words.drop i = [] := List.drop_eq_nil_of_le (by omega)
      simp [this]

/-- The `targetBatches` bound computed by `createMultipleBatches` is at
least 2. -/
theorem targetBatches_pos (e : Nat) : 0 < min 5 (max 2 ((e + 20 - 1) / 20)) := by
  omega

theorem createMultipleBatches_token_coverage (s : List Char) (e : Nat) :
    ((createMultipleBatches s e).map (fun c => tokens c.content)).flatten = tokens s := by
  unfold createMultipleBatches
  have h := cmbLoop_tokens (jsSplitWs s)
    ((jsSplitWs s).length / min 5 (max 2 ((e + 20 - 1) / 20)))
    (min 5 (max 2 ((e + 20 - 1) / 20)))
    (min 5 (max 2 ((e + 20 - 1) / 20))) 0 []
    (by simp only [List.length_nil]; exact targetBatches_pos e) (by simp)
  simpa [jsSplitWs_tokens_flatten] using h

/-- Counterexample input for claim C2: 21 lines reading `a?`.  The
`/\?\s*$/gm` heuristic counts 21 line-final question marks, so
`estimateQuestionCount` returns 21 > 20 and the planner splits the text
into word-based chunks rejoined with single spaces. -/
def exC2 : List Char := (List.replicate 21 ['a', '?', '\n']).flatten

/-- C2, counterexample: the claim "every character position of the input
belongs to the content slice of at least one unit" fails: the input
`exC2` contains `'\n'` (e.g. at position 2), yet no chunk produced by
`createTextChunks` contains a `'\n'` at all — `createMultipleBatches`
splits on `/\s+/` and rejoins words with `' '`, so every non-space
whitespace character of a multi-chunk document is dropped from every
unit. -/
theorem createTextChunks_char_coverage_cex :
    '\n' ∈ exC2 ∧ ∀ c ∈ createTextChunks exC2, '\n' ∉ c.content := by decide

/-- C2, amended: the planner's units cover the entire source content up
to whitespace normalization — the concatenation, in order, of the
whitespace-delimited tokens of the unit contents is exactly the token
list of the input, so no gaps and no duplication at the level of
non-whitespace content (individual whitespace characters are normalized
to single spaces and may appear in no unit). -/
theorem createTextChunks_token_coverage (s : List Char) :
    ((createTextChunks s).map (fun c => tokens c.content)).flatten = tokens s := by
  unfold createTextChunks
  by_cases h1 : estimateQuestionCount s > 20 ∨ s.length > 20000
  · rw [if_pos h1]
    exact createMultipleBatches_token_coverage s _
  · rw [if_neg h1]
    by_cases h2 : s.length < 20000 ∧ estimateQuestionCount s ≤ 10
    · rw [if_pos h2]
      simp
    · rw [if_neg h2]
      exact createMultipleBatches_token_coverage s _

/-! ### JS values and the response normalizer (ai-integration.js:481-734)

JS runtime values are modelled by `JVal` (numbers as `Int`: the pipeline
only manipulates integer indices).  JS exceptions are `Except Unit`.
`JSON.parse` and the regex engine are host builtins, not repository code,
so they enter as components of a `JsOracles` parameter; every theorem
below is proved for EVERY oracle, hence in particular for the real
builtins.  The regular expressions' structural output shape (which groups
exist) is reflected in the oracle types; no assumption is made about
their content. -/

inductive JVal where
  | undefined
  | null
  | bool (b : Bool)
  | num (n : Int)
  | str (s : String)
  | arr (elems : List JVal)
  | obj (fields : List (String × JVal))
deriving Repr

/-- JS truthiness. -/
def jsTruthy : JVal → Bool
  | .undefined => false
  | .null => false
  | .bool b => b
  | .num n => n ≠ 0
  | .str s => s ≠ ""
  | .arr _ => true
  | .obj _ => true

/-- Property read on a value known not to be `null`/`undefined`
(objects from `JSON.parse` with duplicate keys keep the last one). -/
def jsField : JVal → String → JVal
  | .obj fields, k => (((fields.reverse.find? (fun kv => kv.1 == k)).map (·.2)).getD .undefined)
  | _, _ => .undefined

/-- Property read `v[k]`: throws `TypeError` on `null`/`undefined`. -/
def jsGet (v : JVal) (k : String) : Except Unit JVal :=
  match v with
  | .undefined => .error ()
  | .null => .error ()
  | _ => .ok (jsField v k)

/-- `typeof v === "object"` (true for objects, arrays and `null`). -/
def jsTypeofObject : JVal → Bool
  | .null => true
  | .arr _ => true
  | .obj _ => true
  | _ => false

def toUpperCh (c : Char) : Char :=
  if 'a' ≤ c ∧ c ≤ 'z' then Char.ofNat (c.toNat - 32) else c

/-- ASCII `toUpperCase` (exact for the single `[abcdeABCDE]` letters the
answer-detection groups can actually capture). -/
def toUpperS (s : String) : String := String.mk (s.toList.map toUpperCh)

/-- `String.prototype.trim`. -/
def jsTrim (s : String) : String :=
  String.mk (((s.toList.dropWhile isWs).reverse.dropWhile isWs).reverse)

def infixAt (sub : List Char) : List Char → Bool
  | [] => sub.isPrefixOf ([] : List Char)
  | c :: rest => sub.isPrefixOf (c :: rest) || infixAt sub rest

def jsIncludes (s sub : String) : Bool := infixAt sub.toList s.toList

/-- `parseInt(s)`: `none` models `NaN`. -/
def jsParseInt (s : String) : Option Int :=
  let t := s.toList.dropWhile isWs
  let (sign, t) : Int × List Char :=
    match t with
    | '-' :: r => (-1, r)
    | '+' :: r => (1, r)
    | _ => (1, t)
  let ds := t.takeWhile isDigit
  if ds.isEmpty then none
  else some (sign * (ds.foldl (fun a c => a * 10 + ((c.toNat : Int) - 48)) 0))

/-- `s.charCodeAt(0)` (`none` models `NaN` on the empty string). -/
def charCodeAt0 (s : String) : Option Int := s.toList.head?.map (fun c => (c.toNat : Int))

/-- One validated/normalized question record: exactly the fields the rest
of the pipeline reads off the (mutated) candidate objects. -/
structure NormQ where
  question : JVal
  options : List JVal
  correctAnswer : Int
  explanation : JVal := .undefined
  source : JVal := .undefined
  questionId : JVal := .undefined
  batchNumber : JVal := .undefined
deriving Repr

/-- Match object of the JSON-shaped fallback regex
(ai-integration.js:653-654): one capture per question field, four option
captures, digits for `correctAnswer`, optional explanation. -/
structure QPatMatch where
  question : String
  opt1 : String
  opt2 : String
  opt3 : String
  opt4 : String
  caStr : String
  explanation : Option String
deriving Repr

/-- Match object of the raw-prose fallback regex
(ai-integration.js:677-678): full match, question text, and the four
alternated answer-letter capture groups. -/
structure RawMatch where
  full : String
  questionText : String
  a1 : Option String := none
  a2 : Option String := none
  a3 : Option String := none
  a4 : Option String := none
deriving Repr

/-- Host builtins used by the normalizer: `JSON.parse` and the regex
engine applied to the fixed patterns of ai-integration.js.  Theorems
quantify over all oracles. -/
structure JsOracles where
  mdJson : String → Option String
  mdAny : String → Option String
  jsonParse : String → Except Unit JVal
  qPat : String → List QPatMatch
  rawPat : String → List RawMatch
  optPat : String → Option (List String)

/-- `opt.replace(/^[abcdeABCDE][\.\)]\s*/, "").trim()`
(ai-integration.js:709). -/
def stripOptPrefix (s : String) : String :=
  match s.toList with
  | c :: d :: rest =>
    if isOptLetter c ∧ (d = '.' ∨ d = ')') then jsTrim (String.mk (rest.dropWhile isWs))
    else jsTrim s
  | _ => jsTrim s

/-- `a1 || a2 || a3 || a4 || ""` over possibly-missing captures (an empty
captured string is falsy in JS too). -/
def firstTruthyS : List (Option String) → String
  | [] => ""
  | some s :: rest => if s = "" then firstTruthyS rest else s
  | none :: rest => firstTruthyS rest

/-- One iteration of the `questionPattern.exec` loop
(ai-integration.js:656-670): parse the captured digits, keep the record
when `0 <= correctIdx <= 3` (exactly four options). -/
def qPatStep (acc : List NormQ) (m : QPatMatch) : List NormQ :=
  match jsParseInt m.caStr with
  | some correctIdx =>
    if 0 ≤ correctIdx ∧ correctIdx ≤ 3 then
      acc ++ [{ question := .str m.question,
                options := [.str m.opt1, .str m.opt2, .str m.opt3, .str m.opt4],
                correctAnswer := correctIdx,
                explanation := .str
                  (match m.explanation with
                   | some e => if e = "" then "No explanation provided" else e
                   | none => "No explanation provided") }]
    else acc
  | none => acc

/-- One iteration of the raw-prose `rawQuestionPattern.exec` loop
(ai-integration.js:683-729); the state is `(questionId, records)` and the
loop stops pushing once `questionId` passes 20. -/
def rawPatStep (O : JsOracles) (st : Nat × List NormQ) (m : RawMatch) : Nat × List NormQ :=
  let (questionId, acc) := st
  if questionId ≤ 20 then
    let answerLetter := toUpperS (firstTruthyS [m.a1, m.a2, m.a3, m.a4])
    match O.optPat m.full with
    | some optionMatches =>
      if optionMatches.length ≥ 4 ∧ answerLetter ≠ "" then
        let maxOptions := min optionMatches.length 5
        let options := (optionMatches.take maxOptions).map stripOptPrefix
        match charCodeAt0 answerLetter with
        | some code =>
          let correctAnswer := code - 65
          if 0 ≤ correctAnswer ∧ correctAnswer ≤ 4 ∧
              correctAnswer < (options.length : Int) then
            (questionId + 1,
             acc ++ [{ question := .str (jsTrim m.questionText),
                       options := options.map JVal.str,
                       correctAnswer := correctAnswer,
                       explanation := .str ("Answer provided in source: " ++ answerLetter) }])
          else (questionId, acc)
        | none => (questionId, acc)
      else (questionId, acc)
    | none => (questionId, acc)
  else st

/-- `extractQuestionsWithRegex` (ai-integration.js:647-734): first the
JSON-shaped pattern; if it yields nothing, the raw-prose loop capped at 20
records.  Total: no operation in it can throw. -/
def extractQuestionsWithRegex (O : JsOracles) (text : String) : List NormQ :=
  let fromJson : List NormQ := (O.qPat text).foldl qPatStep []
  if fromJson.length = 0 then ((O.rawPat text).foldl (rawPatStep O) (1, [])).2
  else fromJson

/-- The per-candidate body of the validation filter
(ai-integration.js:586-624).  `.error` = a thrown `TypeError` (reading
`.question` off a `null` element), `.ok none` = candidate skipped,
`.ok (some r)` = candidate kept, with the in-place mutations applied. -/
def validateQuestion (q : JVal) : Except Unit (Option NormQ) :=
  match q with
  | .undefined => .error ()
  | .null => .error ()
  | _ =>
    let question := jsField q "question"
    if jsTruthy question = false then .ok none
    else
      match jsField q "options", jsField q "correctAnswer" with
      | .arr options, .num ca0 =>
        if options.length < 2 then .ok none
        else
          -- `if (q.correctAnswer < 0 || q.correctAnswer >= q.options.length) q.correctAnswer = 0`
          let ca1 : Int := if ca0 < 0 ∨ (options.length : Int) ≤ ca0 then 0 else ca0
          -- the 4-5 option normalization mutates `q.options` and possibly
          -- `q.correctAnswer` (only in the >5 branch); both read the
          -- pre-mutation length
          let options2 :=
            if options.length < 4 then
              options ++ List.replicate (4 - options.length) (JVal.str "Additional option")
            else if options.length > 5 then options.take 5
            else options
          let ca2 : Int :=
            if options.length < 4 then ca1
            else if options.length > 5 then (if 5 ≤ ca1 then 0 else ca1)
            else ca1
          .ok (some { question := question, options := options2, correctAnswer := ca2,
                      explanation := jsField q "explanation",
                      source := jsField q "source",
                      questionId := jsField q "questionId",
                      batchNumber := jsField q "batchNumber" })
      | _, _ => .ok none

/-- `parsed.filter(...)` with a callback that mutates and can throw. -/
def validateLoop : List JVal → List NormQ → Except Unit (List NormQ)
  | [], acc => .ok acc
  | q :: rest, acc =>
    match validateQuestion q with
    | .error e => .error e
    | .ok none => validateLoop rest acc
    | .ok (some r) => validateLoop rest (acc ++ [r])

structure BraceSt where
  braceCount : Int
  inString : Bool
  escapeNext : Bool
  lastGoodPos : Nat

/-- One character of the truncated-JSON repair scan
(ai-integration.js:513-542). -/
def braceStep (i : Nat) (ch : Char) (st : BraceSt) : BraceSt :=
  if st.escapeNext then { st with escapeNext := false }
  else if ch = '\\' ∧ st.inString then { st with escapeNext := true }
  else if ch = '"' then { st with inString := !st.inString }
  else if st.inString then st
  else if ch = Char.ofNat 0x7b then { st with braceCount := st.braceCount + 1 }
  else if ch = Char.ofNat 0x7d then
    let bc := st.braceCount - 1
    if bc = 0 then { st with braceCount := bc, lastGoodPos := i + 1 }
    else { st with braceCount := bc }
  else st

def lastGoodPos (w : List Char) : Nat :=
  (w.enum.foldl (fun st p => braceStep p.1 p.2 st)
    { braceCount := 0, inString := false, escapeNext := false, lastGoodPos := 0 }).lastGoodPos

/-- One `.replace(/,\s*X/g, R)` cleanup pass (ai-integration.js:557-560);
fuel keeps the scan structural (`fuel = s.length` suffices: every step
consumes at least one character). -/
def replCommaWs (close : Char) (repl : List Char) : Nat → List Char → List Char
  | 0, s => s
  | fuel + 1, s =>
    match s with
    | [] => []
    | ',' :: rest =>
      let w := takeLen isWs rest
      (match rest.drop w with
       | c :: after =>
         if c = close then repl ++ replCommaWs close repl fuel after
         else ',' :: replCommaWs close repl fuel rest
       | [] => ',' :: replCommaWs close repl fuel rest)
    | c :: rest => c :: replCommaWs close repl fuel rest

/-- The three cleanup replaces plus the final `.trim()`
(ai-integration.js:556-561). -/
def cleanupJson (s : List Char) : List Char :=
  let s1 := replCommaWs (Char.ofNat 0x7d) [Char.ofNat 0x7d] s.length s
  let s2 := replCommaWs ']' [']'] s1.length s1
  let s3 := replCommaWs ',' [','] s2.length s2
  (jsTrim (String.mk s3)).toList

/-- The `try` body of `parseChunkResponse` (ai-integration.js:481-629):
markdown stripping, bracket location, truncated-JSON repair, cleanup,
parse (inner failure falls back to regex extraction directly), array
coercion, and the validation filter. -/
def parseChunkResponseE (O : JsOracles) (text : String) : Except Unit (List NormQ) :=
  let jsonText0 := jsTrim text
  let jsonText1 :=
    if jsIncludes jsonText0 "```json" then
      match O.mdJson jsonText0 with
      | some cap => cap
      | none => jsonText0
    else if jsIncludes jsonText0 "```" then
      match O.mdAny jsonText0 with
      | some cap => cap
      | none => jsonText0
    else jsonText0
  let chars := jsonText1.toList
  match chars.findIdx? (· = '[') with
  | none => .error ()
  | some firstBracket =>
    let lastBracket := lastIdxOf ']' chars
    let repaired : Except Unit (List Char) :=
      if lastBracket = none ∨ firstBracket ≥ lastBracket.getD 0 then
        let workingText := chars.drop (firstBracket + 1)
        let lgp := lastGoodPos workingText
        if lgp > 0 then .ok ('[' :: workingText.take lgp ++ [']'])
        else .error ()
      else
        .ok ((chars.drop firstBracket).take (lastBracket.getD 0 + 1 - firstBracket))
    match repaired with
    | .error e => .error e
    | .ok jsonText2 =>
      let jsonText3 := cleanupJson jsonText2
      match O.jsonParse (String.mk jsonText3) with
      | .error _ => .ok (extractQuestionsWithRegex O text)
      | .ok parsed =>
        let parsedArr : Except Unit (List JVal) :=
          match parsed with
          | .arr xs => .ok xs
          | v =>
            match jsGet v "questions" with
            | .error e => .error e
            | .ok qs =>
              if jsTruthy qs then
                match qs with
                | .arr xs => .ok xs
                | _ =>
                  if jsTypeofObject v ∧ jsTruthy (jsField v "question") then .ok [v]
                  else .error ()
              else
                if jsTypeofObject v ∧ jsTruthy (jsField v "question") then .ok [v]
                else .error ()
        match parsedArr with
        | .error e => .error e
        | .ok xs => validateLoop xs []

/-- `parseChunkResponse` with its outer `catch`: any exception in the try
body is absorbed by a final regex-extraction fallback, whose own code
cannot throw. -/
def parseChunkResponse (O : JsOracles) (text : String) : Except Unit (List NormQ) :=
  match parseChunkResponseE O text with
  | .ok qs => .ok qs
  | .error _ => .ok (extractQuestionsWithRegex O text)

/-! ### Normalizer output validity (claims C3, C8, C9) -/

/-- The record invariant of the spec's data model: consistent
correct-answer index and 4-5 options. -/
def validRecord (r : NormQ) : Prop :=
  0 ≤ r.correctAnswer ∧ r.correctAnswer < (r.options.length : Int) ∧
    4 ≤ r.options.length ∧ r.options.length ≤ 5

theorem validateQuestion_bounds {q : JVal} {r : NormQ}
    (h : validateQuestion q = .ok (some r)) : validRecord r := by
  match q with
  | .undefined => simp [validateQuestion] at h
  | .null => simp [validateQuestion] at h
  | .bool b => simp [validateQuestion, jsField, jsTruthy] at h
  | .num n => simp [validateQuestion, jsField, jsTruthy] at h
  | .str s => simp [validateQuestion, jsField, jsTruthy] at h
  | .arr xs => simp [validateQuestion, jsField, jsTruthy] at h
  | .obj fields =>
    simp only [validateQuestion] at h
    split at h <;> first
      | (simp at h; done)
      | (split at h <;> first
          | (simp at h; done)
          | (split at h <;> first
              | (simp at h; done)
              | (injection h with h
                 injection h with h
                 subst h
                 dsimp only [validRecord]
                 split_ifs <;>
                   (try simp only [List.length_append, List.length_replicate,
                     List.length_take]) <;> omega)))

theorem validateLoop_bounds :
    ∀ (xs : List JVal) (acc : List NormQ), (∀ r ∈ acc, validRecord r) →
    ∀ qs, validateLoop xs acc = .ok qs → ∀ r ∈ qs, validRecord r := by
  intro xs
  induction xs with
  | nil =>
    intro acc hacc qs h r hr
    injection h with h
    subst h
    exact hacc r hr
  | cons q rest ih =>
    intro acc hacc qs h r hr
    unfold validateLoop at h
    split at h
    · exact absurd h (by simp)
    · exact ih acc hacc qs h r hr
    · rename_i r' hval
      refine ih _ ?_ qs h r hr
      intro x hx
      rcases List.mem_append.mp hx with hx | hx
      · exact hacc x hx
      · rw [List.mem_singleton.mp hx]
        exact validateQuestion_bounds hval

theorem qPatStep_bounds (acc : List NormQ) (m : QPatMatch)
    (hacc : ∀ r ∈ acc, validRecord r) : ∀ r ∈ qPatStep acc m, validRecord r := by
  intro r hr
  unfold qPatStep at hr
  split at hr
  · split at hr
    · rename_i hrange
      rcases List.mem_append.mp hr with hr | hr
      · exact hacc r hr
      · rw [List.mem_singleton.mp hr]
        exact ⟨hrange.1, by simpa using by omega, by simp, by simp⟩
    · exact hacc r hr
  · exact hacc r hr

theorem rawPatStep_bounds (O : JsOracles) (st : Nat × List NormQ) (m : RawMatch)
    (hst : ∀ r ∈ st.2, validRecord r) : ∀ r ∈ (rawPatStep O st m).2, validRecord r := by
  intro r hr
  unfold rawPatStep at hr
  obtain ⟨qid, acc⟩ := st
  dsimp only at hr hst
  split at hr
  · split at hr
    · split at hr
      · rename_i optionMatches _ hom
        split at hr
        · rename_i code _
          split at hr
          · rename_i hrange
            rcases List.mem_append.mp hr with hr | hr
            · exact hst r hr
            · rw [List.mem_singleton.mp hr]
              refine ⟨hrange.1, ?_, ?_, ?_⟩
              · simpa using hrange.2.2
              · simp only [List.length_map, List.length_take]
                omega
              · simp only [List.length_map, List.length_take]
                omega
          · exact hst r hr
        · exact hst r hr
      · exact hst r hr
    · exact hst r hr
  · exact hst r hr

theorem foldl_qPatStep_bounds (l : List QPatMatch) :
    ∀ acc, (∀ r ∈ acc, validRecord r) → ∀ r ∈ l.foldl qPatStep acc, validRecord r := by
  induction l with
  | nil => intro acc hacc r hr; exact hacc r hr
  | cons m rest ih =>
    intro acc hacc r hr
    exact ih (qPatStep acc m) (qPatStep_bounds acc m hacc) r hr

theorem foldl_rawPatStep_bounds (O : JsOracles) (l : List RawMatch) :
    ∀ st, (∀ r ∈ st.2, validRecord r) → ∀ r ∈ (l.foldl (rawPatStep O) st).2, validRecord r := by
  induction l with
  | nil => intro st hst r hr; exact hst r hr
  | cons m rest ih =>
    intro st hst r hr
    exact ih (rawPatStep O st m) (rawPatStep_bounds O st m hst) r hr

theorem extractQuestionsWithRegex_bounds (O : JsOracles) (text : String) :
    ∀ r ∈ extractQuestionsWithRegex O text, validRecord r := by
  intro r hr
  simp only [extractQuestionsWithRegex] at hr
  split at hr
  · exact foldl_rawPatStep_bounds O _ (1, []) (by simp) r hr
  · exact foldl_qPatStep_bounds _ [] (by simp) r hr

theorem parseChunkResponseE_bounds (O : JsOracles) (text : String) :
    ∀ qs, parseChunkResponseE O text = .ok qs → ∀ r ∈ qs, validRecord r := by
  intro qs h
  simp only [parseChunkResponseE] at h
  split at h
  · exact absurd h (by simp)
  · split at h
    · exact absurd h (by simp)
    · split at h
      · injection h with h
        subst h
        exact extractQuestionsWithRegex_bounds O text
      · split at h
        · exact absurd h (by simp)
        · exact validateLoop_bounds _ [] (by simp) qs h

/-- C3: for every input string (and every behavior of the host `JSON.parse`
and regex builtins), every question record returned by
`parseChunkResponse` satisfies `0 ≤ correctAnswer < options.length` and
`4 ≤ options.length ≤ 5`. -/
theorem parseChunkResponse_record_valid (O : JsOracles) (text : String)
    (qs : List NormQ) (h : parseChunkResponse O text = .ok qs) :
    ∀ r ∈ qs, 0 ≤ r.correctAnswer ∧ r.correctAnswer < (r.options.length : Int) ∧
      4 ≤ r.options.length ∧ r.options.length ≤ 5 := by
  unfold parseChunkResponse at h
  split at h
  · injection h with h
    subst h
    rename_i h'
    exact parseChunkResponseE_bounds O text _ h'
  · injection h with h
    subst h
    exact extractQuestionsWithRegex_bounds O text

/-- Concrete oracle for the witnesses: `JSON.parse` returns one question
object with four options and the out-of-range index 7. -/
def oracleW : JsOracles where
  mdJson := fun _ => none
  mdAny := fun _ => none
  jsonParse := fun _ => .ok (.arr [.obj
    [("question", .str "Q"),
     ("options", .arr [.str "A", .str "B", .str "C", .str "D"]),
     ("correctAnswer", .num 7)]])
  qPat := fun _ => []
  rawPat := fun _ => []
  optPat := fun _ => none

/-- The record `parseChunkResponse` produces under `oracleW`: index
clamped to 0, options kept. -/
def recordW : NormQ :=
  { question := .str "Q",
    options := [.str "A", .str "B", .str "C", .str "D"],
    correctAnswer := 0 }

theorem parseChunkResponse_oracleW : parseChunkResponse oracleW "[x]" = .ok [recordW] := rfl

theorem parseChunkResponse_record_valid_witness :
    0 ≤ recordW.correctAnswer ∧ recordW.correctAnswer < (recordW.options.length : Int) ∧
      4 ≤ recordW.options.length ∧ recordW.options.length ≤ 5 :=
  parseChunkResponse_record_valid oracleW "[x]" [recordW] parseChunkResponse_oracleW
    recordW (List.mem_singleton.mpr rfl)

/-- C8: for every input string — arbitrarily malformed — and every
behavior of the host builtins, `parseChunkResponse` returns a list
(possibly empty) and never lets an exception escape: any failure inside
the try body is absorbed by the total regex fallback. -/
theorem parseChunkResponse_total (O : JsOracles) (text : String) :
    ∃ qs : List NormQ, parseChunkResponse O text = .ok qs := by
  unfold parseChunkResponse
  split
  · rename_i qs _
    exact ⟨qs, rfl⟩
  · exact ⟨extractQuestionsWithRegex O text, rfl⟩

/-! ### The persistence layer (`DatabaseManager`, part_003)

The two object stores relevant to the pipeline (`pdfs` keyed by `id`,
`questions` keyed by `id` with a `pdfId` index) are modelled as lists with
IndexedDB `put` upsert semantics.  `new Date()` timestamps enter as a
`now : Nat` parameter.  A rejected IndexedDB request is `Except.error`;
operations return the post-state alongside, since JS mutations performed
before a rejection persist.  The unique `(pdfId, questionId)` index on
`questions` can never fire a constraint violation in this model: the
primary key is the string `` `${pdfId}_${questionId}` `` and `questionId`
prints without underscores, so equal index pairs imply equal primary keys
(a `put` overwrite, not an error). -/

structure PDFRecord where
  id : String
  filename : String
  fileSize : Nat
  uploadDate : Nat
  lastAccessed : Nat
  textContent : Option String
  totalQuestions : Nat
  isComplete : Bool
  processingStatus : String
  batchCount : Nat
  completedBatches : Nat
deriving Repr, DecidableEq

structure QuestionRecord where
  id : String
  pdfId : String
  questionId : Int
  batchNumber : Int
  question : JVal
  options : List JVal
  correctAnswer : Int
  explanation : JVal
  createdDate : Nat
  source : String
deriving Repr

structure DBState where
  pdfs : List PDFRecord
  questions : List QuestionRecord
deriving Repr

/-- IndexedDB `put` on the `pdfs` store: replace the record with the same
key, else insert. -/
def upsertPDF (rec : PDFRecord) : List PDFRecord → List PDFRecord
  | [] => [rec]
  | p :: rest => if p.id = rec.id then rec :: rest else p :: upsertPDF rec rest

/-- IndexedDB `put` on the `questions` store. -/
def upsertQ (rec : QuestionRecord) : List QuestionRecord → List QuestionRecord
  | [] => [rec]
  | q :: rest => if q.id = rec.id then rec :: rest else q :: upsertQ rec rest

def lookupPDF (st : DBState) (pdfId : String) : Option PDFRecord :=
  st.pdfs.find? (fun p => p.id = pdfId)

/-- Input object of `storePDF` (part_003:78-104); the stored record applies
the `|| default` fallbacks (`x || 0` is the identity on `Nat`, and
`b || false` the identity on `Bool`, so only `processingStatus` and
`batchCount` need explicit fallback logic). -/
structure PDFData where
  id : String
  filename : String
  fileSize : Nat
  textContent : Option String
  totalQuestions : Nat := 0
  isComplete : Bool := false
  processingStatus : String := ""
  batchCount : Nat := 0
  completedBatches : Nat := 0
deriving Repr

/-- `storePDF` (part_003:78-104). -/
def storePDF (st : DBState) (now : Nat) (d : PDFData) : DBState × PDFRecord :=
  let pdfRecord : PDFRecord :=
    { id := d.id, filename := d.filename, fileSize := d.fileSize,
      uploadDate := now, lastAccessed := now,
      textContent := d.textContent,
      totalQuestions := d.totalQuestions,
      isComplete := d.isComplete,
      processingStatus := if d.processingStatus = "" then "pending" else d.processingStatus,
      batchCount := if d.batchCount = 0 then 1 else d.batchCount,
      completedBatches := d.completedBatches }
  ({ st with pdfs := upsertPDF pdfRecord st.pdfs }, pdfRecord)

/-- `getPDF` (part_003:106-121): resolves the fetched record and touches
its `lastAccessed` timestamp via `updatePDFLastAccessed`. -/
def getPDF (st : DBState) (now : Nat) (pdfId : String) : DBState × Option PDFRecord :=
  match lookupPDF st pdfId with
  | some p =>
    ({ st with pdfs := upsertPDF { p with lastAccessed := now } st.pdfs }, some p)
  | none => (st, none)

/-- `updatePDFProgress` (part_003:145-171):
`completedBatches := max(completedBatches, completedBatch)`; rejects with
"PDF not found" on an unknown id. -/
def updatePDFProgress (st : DBState) (now : Nat) (pdfId : String) (completedBatch : Nat) :
    DBState × Except Unit PDFRecord :=
  match lookupPDF st pdfId with
  | some p =>
    let p' := { p with completedBatches := max p.completedBatches completedBatch,
                       lastAccessed := now }
    ({ st with pdfs := upsertPDF p' st.pdfs }, .ok p')
  | none => (st, .error ())

/-- `completePDFProcessing` / its alias `markPDFComplete`
(part_003:173-203). -/
def markPDFComplete (st : DBState) (now : Nat) (pdfId : String) :
    DBState × Except Unit PDFRecord :=
  match lookupPDF st pdfId with
  | some p =>
    let p' := { p with isComplete := true, processingStatus := "complete",
                       lastAccessed := now }
    ({ st with pdfs := upsertPDF p' st.pdfs }, .ok p')
  | none => (st, .error ())

/-- Stable insertion into a `questionId`-sorted list (new records go after
records with an equal key). -/
def insertSorted (q : QuestionRecord) : List QuestionRecord → List QuestionRecord
  | [] => [q]
  | x :: rest => if q.questionId < x.questionId then q :: x :: rest else x :: insertSorted q rest

/-- `getQuestions(pdfId)` (part_003:277-298) with the `batchNumber = null`
default every pipeline call uses: all records of the `pdfId` index, sorted
by `questionId` via a stable sort (the JS numeric-comparator `Array.sort`
is stable; `questionId` is unique per document anyway). -/
def getQuestionsFor (st : DBState) (pdfId : String) : List QuestionRecord :=
  (st.questions.filter (fun q => q.pdfId = pdfId)).foldr insertSorted []

/-- `getQuestionCount` (part_003:300-315). -/
def getQuestionCount (st : DBState) (pdfId : String) : Nat :=
  (st.questions.filter (fun q => q.pdfId = pdfId)).length

/-- `updatePDFQuestionCount` (part_003:505-526). -/
def updatePDFQuestionCount (st : DBState) (now : Nat) (pdfId : String) (totalCount : Nat) :
    DBState × Except Unit PDFRecord :=
  match lookupPDF st pdfId with
  | some p =>
    let p' := { p with totalQuestions := totalCount, lastAccessed := now }
    ({ st with pdfs := upsertPDF p' st.pdfs }, .ok p')
  | none => (st, .error ())

/-- Input object of `storeQuestions`: the fields it reads off each question
object.  `questionId`/`batchNumber` are present (as numbers) only on
records arriving through the sync path; `source` only when a provenance
string was already set.  `none` models an absent/`undefined` field. -/
structure StoreQInput where
  questionId : Option Int := none
  batchNumber : Option Int := none
  question : JVal
  options : List JVal
  correctAnswer : Int
  explanation : JVal
  source : Option String := none
deriving Repr

/-- How `storeQuestions` sees a record coming from the response normalizer
(plain parsed JS object: number fields kept, anything else is as good as
absent for the `||` fallbacks). -/
def normQToStoreInput (q : NormQ) : StoreQInput :=
  { questionId := match q.questionId with | .num n => some n | _ => none,
    batchNumber := match q.batchNumber with | .num n => some n | _ => none,
    question := q.question, options := q.options, correctAnswer := q.correctAnswer,
    explanation := q.explanation,
    source := match q.source with | .str s => some s | _ => none }

/-- The per-question record construction of `storeQuestions`
(part_003:217-233). -/
def mkQuestionRecord (now : Nat) (pdfId : String) (batchNumber : Int) (idx : Nat)
    (q : StoreQInput) : QuestionRecord :=
  let generatedQuestionId : Int :=
    match q.questionId with
    | some n => if n = 0 then (batchNumber - 1) * 1000 + idx + 1 else n
    | none => (batchNumber - 1) * 1000 + idx + 1
  { id := pdfId ++ "_" ++ toString generatedQuestionId,
    pdfId := pdfId,
    questionId := generatedQuestionId,
    batchNumber := match q.batchNumber with
                   | some b => if b = 0 then batchNumber else b
                   | none => batchNumber,
    question := q.question, options := q.options, correctAnswer := q.correctAnswer,
    explanation := q.explanation, createdDate := now,
    source := match q.source with
              | some s => if s = "" then "ai" else s
              | none => "ai" }

/-- `storeQuestions` (part_003:206-275): put every record, then recount and
write the total back onto the PDF record (which rejects — after the
question puts have already happened — when the PDF record is missing). -/
def storeQuestions (st : DBState) (now : Nat) (pdfId : String)
    (questions : List StoreQInput) (batchNumber : Int) :
    DBState × Except Unit (List QuestionRecord) :=
  let records := questions.enum.map (fun p => mkQuestionRecord now pdfId batchNumber p.1 p.2)
  let st' := { st with questions := records.foldl (fun qs r => upsertQ r qs) st.questions }
  let totalCount := getQuestionCount st' pdfId
  match updatePDFQuestionCount st' now pdfId totalCount with
  | (st'', .ok _) => (st'', .ok records)
  | (st'', .error e) => (st'', .error e)

/-- The batch-coverage count of `verifyProcessingCompletion`
(batch-processor.js:602-605): number of distinct `batchNumber`s among the
stored records of one document. -/
def batchesProcessed (st : DBState) (pdfId : String) : Nat :=
  ((getQuestionsFor st pdfId).map (fun q => q.batchNumber)).dedup.length

/-! ### Frame and invariant lemmas over the store (claims C6, C9, C10) -/

theorem updatePDFQuestionCount_questions (st : DBState) (now : Nat) (pid : String) (n : Nat) :
    ((updatePDFQuestionCount st now pid n).1).questions = st.questions := by
  unfold updatePDFQuestionCount
  split <;> rfl

theorem pairMatch_fst (p : DBState × Except Unit PDFRecord) (recs : List QuestionRecord) :
    (match p with
     | (st'', .ok _) => (st'', Except.ok recs)
     | (st'', .error e) => (st'', Except.error e)).1 = p.1 := by
  rcases p with ⟨s, r⟩
  cases r <;> rfl

theorem batchesProcessed_congr {st1 st2 : DBState} (h : st1.questions = st2.questions)
    (pid : String) : batchesProcessed st1 pid = batchesProcessed st2 pid := by
  unfold batchesProcessed getQuestionsFor
  rw [h]

/-- C10: storing an empty record list inserts nothing — the question store
is unchanged (only the PDF record's `totalQuestions`/`lastAccessed` are
rewritten), so the fallback completion verification's distinct-batch count
is unchanged for every document: a batch that yielded zero records is
never credited. -/
theorem storeQuestions_empty_no_insert (st : DBState) (now : Nat) (pdfId : String) (b : Int) :
    ((storeQuestions st now pdfId [] b).1).questions = st.questions ∧
    ∀ pid, batchesProcessed ((storeQuestions st now pdfId [] b).1) pid
      = batchesProcessed st pid := by
  have h1 : ((storeQuestions st now pdfId [] b).1).questions = st.questions := by
    have hfst : (storeQuestions st now pdfId [] b).1
        = (updatePDFQuestionCount st now pdfId (getQuestionCount st pdfId)).1 :=
      pairMatch_fst _ _
    rw [hfst, updatePDFQuestionCount_questions]
  exact ⟨h1, fun pid => batchesProcessed_congr h1 pid⟩

theorem find?_upsertPDF_self (rec : PDFRecord) (l : List PDFRecord) :
    (upsertPDF rec l).find? (fun p => p.id = rec.id) = some rec := by
  induction l with
  | nil => simp [upsertPDF]
  | cons p rest ih =>
    by_cases h : p.id = rec.id
    · simp [upsertPDF, h]
    · simp [upsertPDF, h, ih]

theorem find?_upsertPDF_other (rec : PDFRecord) (l : List PDFRecord) (x : String)
    (hx : ¬ rec.id = x) :
    (upsertPDF rec l).find? (fun p => p.id = x) = l.find? (fun p => p.id = x) := by
  induction l with
  | nil => simp [upsertPDF, hx]
  | cons p rest ih =>
    by_cases h : p.id = rec.id
    · have hpx : ¬ p.id = x := by rw [h]; exact hx
      rw [upsertPDF, if_pos h]
      simp [List.find?, hx, hpx]
    · rw [upsertPDF, if_neg h]
      by_cases hpx : p.id = x
      · simp [List.find?, hpx]
      · simp [List.find?, hpx, ih]

theorem mem_upsertPDF {rec x : PDFRecord} {l : List PDFRecord}
    (h : x ∈ upsertPDF rec l) : x = rec ∨ x ∈ l := by
  induction l with
  | nil => simpa [upsertPDF] using h
  | cons p rest ih =>
    by_cases hp : p.id = rec.id
    · rw [upsertPDF, if_pos hp] at h
      rcases List.mem_cons.mp h with h | h
      · exact Or.inl h
      · exact Or.inr (List.mem_cons.mpr (Or.inr h))
    · rw [upsertPDF, if_neg hp] at h
      rcases List.mem_cons.mp h with h | h
      · exact Or.inr (List.mem_cons.mpr (Or.inl h))
      · rcases ih h with h | h
        · exact Or.inl h
        · exact Or.inr (List.mem_cons.mpr (Or.inr h))

theorem lookupPDF_id {st : DBState} {pid : String} {p : PDFRecord}
    (h : lookupPDF st pid = some p) : p.id = pid := by
  have := List.find?_some h
  simpa using this

theorem lookupPDF_mem {st : DBState} {pid : String} {p : PDFRecord}
    (h : lookupPDF st pid = some p) : p ∈ st.pdfs :=
  List.mem_of_find?_eq_some h

theorem lookupPDF_updatePDFProgress_miss {st : DBState} {now : Nat} {pid : String} {b : Nat}
    (hp : lookupPDF st pid = none) (x : String) :
    lookupPDF ((updatePDFProgress st now pid b).1) x = lookupPDF st x := by
  simp only [updatePDFProgress, hp]

theorem lookupPDF_updatePDFProgress_self {st : DBState} {now : Nat} {pid : String} {b : Nat}
    {p : PDFRecord} (hp : lookupPDF st pid = some p) :
    lookupPDF ((updatePDFProgress st now pid b).1) pid
      = some { p with completedBatches := max p.completedBatches b, lastAccessed := now } := by
  have hid : p.id = pid := lookupPDF_id hp
  simp only [updatePDFProgress, hp]
  unfold lookupPDF
  have h := find?_upsertPDF_self
    { p with completedBatches := max p.completedBatches b, lastAccessed := now } st.pdfs
  simpa [hid] using h

theorem lookupPDF_updatePDFProgress_other {st : DBState} {now : Nat} {pid : String} {b : Nat}
    (x : String) (hx : x ≠ pid) :
    lookupPDF ((updatePDFProgress st now pid b).1) x = lookupPDF st x := by
  rcases hp : lookupPDF st pid with _ | p
  · exact lookupPDF_updatePDFProgress_miss hp x
  · have hid : p.id = pid := lookupPDF_id hp
    simp only [updatePDFProgress, hp]
    unfold lookupPDF
    refine find?_upsertPDF_other _ _ x ?_
    simp only [hid]
    exact fun h => hx h.symm

theorem mem_updatePDFProgress {st : DBState} {now : Nat} {pid : String} {b : Nat}
    {x : PDFRecord} (h : x ∈ ((updatePDFProgress st now pid b).1).pdfs) :
    (∃ p ∈ st.pdfs, p.id = pid ∧
      x = { p with completedBatches := max p.completedBatches b, lastAccessed := now })
    ∨ x ∈ st.pdfs := by
  unfold updatePDFProgress at h
  split at h
  · rename_i p hp
    rcases mem_upsertPDF h with h | h
    · exact Or.inl ⟨p, lookupPDF_mem hp, lookupPDF_id hp, h⟩
    · exact Or.inr h
  · exact Or.inr h

/-- A sequence of `updatePDFProgress` calls, each given as
`(now, pdfId, completedBatch)`. -/
def runProgressCalls (st : DBState) (calls : List (Nat × String × Nat)) : DBState :=
  calls.foldl (fun s c => (updatePDFProgress s c.1 c.2.1 c.2.2).1) st

/-- C6: across every sequence of `updatePDFProgress` calls, a document's
completed-unit counter is non-decreasing, and — as long as every call
reports the ordinal of a planned unit (`completedBatch ≤ batchCount`, which
is how the orchestrator and scheduler call it) and the state satisfies the
data-model invariant to begin with — it never exceeds the planned unit
count, which the calls never change. -/
theorem updatePDFProgress_progress_invariant :
    ∀ (calls : List (Nat × String × Nat)) (st : DBState),
    (∀ p ∈ st.pdfs, p.completedBatches ≤ p.batchCount) →
    (∀ c ∈ calls, ∀ p ∈ st.pdfs, p.id = c.2.1 → c.2.2 ≤ p.batchCount) →
    ∀ x p, lookupPDF st x = some p →
      ∃ p', lookupPDF (runProgressCalls st calls) x = some p' ∧
        p.completedBatches ≤ p'.completedBatches ∧
        p'.completedBatches ≤ p'.batchCount ∧ p'.batchCount = p.batchCount := by
  intro calls
  induction calls with
  | nil =>
    intro st hinv _ x p hp
    exact ⟨p, hp, Nat.le_refl _, hinv p (lookupPDF_mem hp), rfl⟩
  | cons c rest ih =>
    intro st hinv hcalls x p hp
    obtain ⟨now, pid, b⟩ := c
    have hrun : runProgressCalls st ((now, pid, b) :: rest)
        = runProgressCalls ((updatePDFProgress st now pid b).1) rest := rfl
    set st1 := (updatePDFProgress st now pid b).1 with hst1
    have hinv1 : ∀ q ∈ st1.pdfs, q.completedBatches ≤ q.batchCount := by
      intro q hq
      rcases mem_updatePDFProgress hq with ⟨p0, hp0, hid0, rfl⟩ | hq
      · have hb : b ≤ p0.batchCount := hcalls (now, pid, b) (by simp) p0 hp0 hid0
        have := hinv p0 hp0
        simp only [Nat.max_le]
        exact ⟨this, hb⟩
      · exact hinv q hq
    have hcalls1 : ∀ c' ∈ rest, ∀ q ∈ st1.pdfs, q.id = c'.2.1 → c'.2.2 ≤ q.batchCount := by
      intro c' hc' q hq hid
      rcases mem_updatePDFProgress hq with ⟨p0, hp0, hid0, rfl⟩ | hq
      · exact hcalls c' (by simp [hc']) p0 hp0 (by simpa using hid)
      · exact hcalls c' (by simp [hc']) q hq hid
    rw [hrun]
    rcases hpid : lookupPDF st pid with _ | p0
    · have hlx : lookupPDF st1 x = lookupPDF st x := lookupPDF_updatePDFProgress_miss hpid x
      exact ih st1 hinv1 hcalls1 x p (hlx.trans hp)
    · by_cases hx : x = pid
      · subst hx
        have hpp0 : p = p0 := Option.some.inj (hp.symm.trans hpid)
        subst hpp0
        have hlx := @lookupPDF_updatePDFProgress_self st now _ b _ hpid
        obtain ⟨p', h1, h2, h3, h4⟩ := ih st1 hinv1 hcalls1 x _ hlx
        exact ⟨p', h1, Nat.le_trans (Nat.le_max_left _ _) h2, h3, h4⟩
      · have hlx : lookupPDF st1 x = lookupPDF st x := lookupPDF_updatePDFProgress_other x hx
        exact ih st1 hinv1 hcalls1 x p (hlx.trans hp)

def pdfC6 : PDFRecord :=
  { id := "p", filename := "f.pdf", fileSize := 10, uploadDate := 0, lastAccessed := 0,
    textContent := some "t", totalQuestions := 0, isComplete := false,
    processingStatus := "processing", batchCount := 3, completedBatches := 1 }

def stC6 : DBState := { pdfs := [pdfC6], questions := [] }

def callsC6 : List (Nat × String × Nat) := [(10, "p", 2), (20, "p", 2), (30, "p", 3)]

theorem updatePDFProgress_progress_invariant_witness :
    ∃ p', lookupPDF (runProgressCalls stC6 callsC6) "p" = some p' ∧
      pdfC6.completedBatches ≤ p'.completedBatches ∧
      p'.completedBatches ≤ p'.batchCount ∧ p'.batchCount = pdfC6.batchCount :=
  updatePDFProgress_progress_invariant callsC6 stC6 (by decide) (by decide) "p" pdfC6
    (by decide)

/-! ### Out-of-range clamping and provenance (claim C9) -/

def pdfC9 : PDFRecord :=
  { id := "h1", filename := "g.pdf", fileSize := 9, uploadDate := 0, lastAccessed := 0,
    textContent := some "t", totalQuestions := 0, isComplete := false,
    processingStatus := "processing", batchCount := 2, completedBatches := 1 }

/-- C9, counterexample: under `oracleW` the parsed candidate has
`correctAnswer = 7` with 4 options (out of range).  The normalizer clamps
the index to 0 and keeps the record — but attaches NO provenance tag
(`source` stays absent), so storing it yields the DEFAULT `"ai"` tag, not
a warning-level one; the only warning is a console log. -/
theorem clamp_provenance_cex :
    parseChunkResponse oracleW "[x]" = .ok [recordW] ∧
    recordW.correctAnswer = 0 ∧ recordW.source = JVal.undefined ∧
    ((storeQuestions { pdfs := [pdfC9], questions := [] } 5 "h1"
        [normQToStoreInput recordW] 2).1).questions =
      [{ id := "h1_1001", pdfId := "h1", questionId := 1001, batchNumber := 2,
         question := .str "Q", options := [.str "A", .str "B", .str "C", .str "D"],
         correctAnswer := 0, explanation := .undefined, createdDate := 5, source := "ai" }] :=
  ⟨rfl, rfl, rfl, rfl⟩

/-- C9, amended: an extracted candidate whose numeric correct-answer index
is out of range is clamped to 0 and kept (not discarded), but no
warning-level provenance tag is applied: the record's `source` field is
whatever the candidate already carried (absent for oracle output), and the
store then falls back to the default `"ai"` tag. -/
theorem clamp_keeps_record_default_tag
    (fields : List (String × JVal)) (options : List JVal) (ca0 : Int)
    (hq : jsTruthy (jsField (.obj fields) "question") = true)
    (hopt : jsField (.obj fields) "options" = .arr options)
    (hca : jsField (.obj fields) "correctAnswer" = .num ca0)
    (hlen : 2 ≤ options.length)
    (hout : ca0 < 0 ∨ (options.length : Int) ≤ ca0) :
    ∃ r, validateQuestion (.obj fields) = .ok (some r) ∧
      r.correctAnswer = 0 ∧
      r.source = jsField (.obj fields) "source" ∧
      ∀ now pid bn idx, jsField (.obj fields) "source" = .undefined →
        (mkQuestionRecord now pid bn idx (normQToStoreInput r)).source = "ai" := by
  have h2 : ¬ (options.length < 2) := by omega
  refine ⟨{ question := jsField (.obj fields) "question",
            options := if options.length < 4 then
                options ++ List.replicate (4 - options.length) (JVal.str "Additional option")
              else if options.length > 5 then options.take 5 else options,
            correctAnswer := 0,
            explanation := jsField (.obj fields) "explanation",
            source := jsField (.obj fields) "source",
            questionId := jsField (.obj fields) "questionId",
            batchNumber := jsField (.obj fields) "batchNumber" }, ?_, rfl, rfl, ?_⟩
  · simp only [validateQuestion, hopt, hca, hq, Bool.true_eq_false, if_false, h2,
      if_pos hout]
    split_ifs <;> simp
  · intro now pid bn idx hsrc
    simp [mkQuestionRecord, normQToStoreInput, hsrc]

def fieldsW : List (String × JVal) :=
  [("question", .str "Q"),
   ("options", .arr [.str "A", .str "B", .str "C", .str "D"]),
   ("correctAnswer", .num 7)]

theorem clamp_keeps_record_default_tag_witness :
    ∃ r, validateQuestion (.obj fieldsW) = .ok (some r) ∧
      r.correctAnswer = 0 ∧
      r.source = jsField (.obj fieldsW) "source" ∧
      ∀ now pid bn idx, jsField (.obj fieldsW) "source" = .undefined →
        (mkQuestionRecord now pid bn idx (normQToStoreInput r)).source = "ai" :=
  clamp_keeps_record_default_tag fieldsW [.str "A", .str "B", .str "C", .str "D"] 7
    rfl rfl rfl (by decide) (by decide)

/-! ### The extraction worker (`processChunkWithAI`,
batch-processor.js:294-354; claim C7)

The generative-service calls (`generateQuestionsFromText` /
`generateQuestionsFromImage`, which already pipe through the response
normalizer) are external calls that may throw: they enter as an `AIOracle`.
`Option` on the result models JS `null`. -/

inductive ChunkContent where
  | text (s : List Char)
  | image (payload : String)
deriving Repr

structure WorkChunk where
  content : ChunkContent
  batchNumber : Nat
  isFirstBatch : Bool
  wordsCount : Option Nat := none
deriving Repr

def toWorkChunk (c : Chunk) : WorkChunk :=
  { content := .text c.content, batchNumber := c.batchNumber,
    isFirstBatch := c.isFirstBatch, wordsCount := c.wordsCount }

structure AIOracle where
  fromText : List Char → Except Unit (Option (List NormQ))
  fromImage : String → Except Unit (Option (List NormQ))

/-- The image-vs-text dispatch of processChunkWithAI (lines 304-320). -/
def aiCall (O : AIOracle) (chunk : WorkChunk) : Except Unit (Option (List NormQ)) :=
  match chunk.content with
  | .image payload => O.fromImage payload
  | .text s => O.fromText s

/-- `processChunkWithAI`: returns `null` when cancelled; otherwise the
oracle's questions, `[]` on an empty/null response, and — via the catch —
`[]` when the call throws, so other batches can continue.  The return
type exposes that no exception ever escapes this function. -/
def processChunkWithAI (aborted : Bool) (O : AIOracle) (chunk : WorkChunk) :
    Option (List NormQ) :=
  if aborted then none
  else
    match aiCall O chunk with
    | .ok (some questions) => if questions.length > 0 then some questions else some []
    | .ok none => some []
    | .error _ => some []

/-- C7: whenever the oracle call (or the normalization inside it) throws,
`processChunkWithAI` returns an empty list instead of propagating the
exception — the unit still counts as processed, so a unit failure can
never stall the scheduler. -/
theorem processChunkWithAI_absorbs_failure (O : AIOracle) (chunk : WorkChunk) (e : Unit)
    (hfail : aiCall O chunk = .error e) :
    processChunkWithAI false O chunk = some [] := by
  unfold processChunkWithAI
  rw [hfail]
  rfl

def failingOracle : AIOracle :=
  { fromText := fun _ => .error (), fromImage := fun _ => .error () }

def chunkC7 : WorkChunk :=
  { content := .text "some text".toList, batchNumber := 2, isFirstBatch := false }

theorem processChunkWithAI_absorbs_failure_witness :
    processChunkWithAI false failingOracle chunkC7 = some [] :=
  processChunkWithAI_absorbs_failure failingOracle chunkC7 () rfl

/-! ### The background scheduler (`processQueue`,
batch-processor.js:425-663; claims C4, C5)

One drain of the queue, with an explicit millisecond clock: `setTimeout`
fires exactly on time and database work takes no time in this idealized
schedule, while each raced oracle call takes the duration its outcome
prescribes.  The per-item outcome (indexed by position in the queue)
models the settled `Promise.race([processChunkWithAI(..), timeout])`:
`.error` is a rejection (the 120 s timeout — `processChunkWithAI` itself
never throws), `.ok` its value.  Cancellation never fires in the runs
modelled here, so the `abortController` checks are constantly false. -/

structure SchedItem where
  chunk : WorkChunk
  pdfId : String
  totalBatches : Nat
deriving Repr

inductive Event where
  | cacheHit (pdfId : String)
  | firstBatchReady (pdfId : String) (count : Nat)
  | batchCompleted (pdfId : String) (batchNumber : Nat) (newTotal : Nat)
  | processingComplete (pdfId : String) (totalQuestions : Nat) (hasErrors : Bool)
      (failedBatch : Option Nat) (completionError : Bool) (completedViaFallback : Bool)
  | processingError
deriving Repr, DecidableEq

structure SchedState where
  db : DBState
  clock : Nat
  lastRequestTime : Option Nat
  events : List Event
  callTimes : List Nat
deriving Repr

/-- `enforceRateLimit` (batch-processor.js:652-663).  NOTE the faithful
translation of line 662: `this.lastRequestTime = now` stores the value of
`now` captured BEFORE the `setTimeout` wait, in both branches.  The
`t ≠ 0` conjunct is the JS truthiness test `this.lastRequestTime &&`. -/
def enforceRateLimit (rateLimitDelay : Nat) (s : SchedState) : SchedState :=
  let now := s.clock
  match s.lastRequestTime with
  | some t =>
    if t ≠ 0 ∧ now - t < rateLimitDelay then
      { s with clock := now + (rateLimitDelay - (now - t)), lastRequestTime := some now }
    else { s with lastRequestTime := some now }
  | none => { s with lastRequestTime := some now }

/-- The non-final/final handling shared by the "no questions generated"
branch (batch-processor.js:497-515): no store, no progress update; on the
final ordinal, mark complete and emit `processingComplete` — with NO error
flag. -/
def drainTryEmpty (item : SchedItem) (now : Nat) (db : DBState) :
    DBState × List Event × Except Unit Unit :=
  if item.chunk.batchNumber = item.totalBatches then
    match markPDFComplete db now item.pdfId with
    | (db1, .error e) => (db1, [], .error e)
    | (db1, .ok _) =>
      let finalQuestions := getQuestionsFor db1 item.pdfId
      (db1, [Event.processingComplete item.pdfId finalQuestions.length false none false false],
       .ok ())
  else (db, [], .ok ())

/-- The `try` body of one drain iteration after the raced call resolved
(batch-processor.js:456-515). -/
def drainTry (item : SchedItem) (questionsOpt : Option (List NormQ)) (now : Nat)
    (db : DBState) : DBState × List Event × Except Unit Unit :=
  match questionsOpt with
  | some qs =>
    if qs.length > 0 then
      match storeQuestions db now item.pdfId (qs.map normQToStoreInput)
          (item.chunk.batchNumber : Int) with
      | (db1, .error e) => (db1, [], .error e)
      | (db1, .ok _) =>
        match updatePDFProgress db1 now item.pdfId item.chunk.batchNumber with
        | (db2, .error e) => (db2, [], .error e)
        | (db2, .ok _) =>
          let allQuestions := getQuestionsFor db2 item.pdfId
          let ev1 := [Event.batchCompleted item.pdfId item.chunk.batchNumber
            allQuestions.length]
          if item.chunk.batchNumber = item.totalBatches then
            match markPDFComplete db2 now item.pdfId with
            | (db3, .error e) => (db3, ev1, .error e)
            | (db3, .ok _) =>
              let finalQuestions := getQuestionsFor db3 item.pdfId
              (db3, ev1 ++ [Event.processingComplete item.pdfId finalQuestions.length
                false none false false], .ok ())
          else (db2, ev1, .ok ())
    else drainTryEmpty item now db
  | none => drainTryEmpty item now db

/-- The `catch` of one drain iteration (batch-processor.js:516-572): store
an empty result to track the failed batch (its own failure only logged),
and on the final ordinal still mark complete, emitting
`processingComplete` with `hasErrors: true` (or `completionError: true`
when even that fails). -/
def drainCatch (item : SchedItem) (now : Nat) (db : DBState) : DBState × List Event :=
  let db1 := (storeQuestions db now item.pdfId [] (item.chunk.batchNumber : Int)).1
  if item.chunk.batchNumber = item.totalBatches then
    match markPDFComplete db1 now item.pdfId with
    | (db2, .ok _) =>
      let finalQuestions := getQuestionsFor db2 item.pdfId
      (db2, [Event.processingComplete item.pdfId finalQuestions.length true
        (some item.chunk.batchNumber) false false])
    | (db2, .error _) =>
      (db2, [Event.processingComplete item.pdfId 0 true none true false])
  else (db1, [])

/-- One iteration of the drain loop: rate limit, record the oracle-call
start time, advance the clock by the call's duration, then run the try
body or the catch. -/
def drainStep (item : SchedItem) (outcome : Except Unit (Option (List NormQ)))
    (dur : Nat) (s : SchedState) : SchedState :=
  let s1 := enforceRateLimit 5000 s
  let s2 := { s1 with callTimes := s1.callTimes ++ [s1.clock], clock := s1.clock + dur }
  match outcome with
  | .ok qopt =>
    match drainTry item qopt s2.clock s2.db with
    | (db', evs, .ok _) => { s2 with db := db', events := s2.events ++ evs }
    | (db', evs, .error _) =>
      let (db'', evs2) := drainCatch item s2.clock db'
      { s2 with db := db'', events := s2.events ++ evs ++ evs2 }
  | .error _ =>
    let (db'', evs2) := drainCatch item s2.clock s2.db
    { s2 with db := db'', events := s2.events ++ evs2 }

/-- The `while` loop of `processQueue`, over one fixed queue snapshot;
`k` indexes the outcome schedule. -/
def drainLoop (outcomes : Nat → Except Unit (Option (List NormQ)) × Nat) :
    Nat → List SchedItem → SchedState → SchedState
  | _, [], s => s
  | k, item :: rest, s =>
    drainLoop outcomes (k + 1) rest (drainStep item (outcomes k).1 (outcomes k).2 s)

/-- The per-document body of `verifyProcessingCompletion`
(batch-processor.js:589-629); a database rejection is caught by the
enclosing catch and abandons the remaining documents. -/
def verifyLoop (now : Nat) : List PDFRecord → DBState → List Event → DBState × List Event
  | [], db, evs => (db, evs)
  | pdf :: rest, db, evs =>
    if ¬ pdf.isComplete ∧ pdf.batchCount ≠ 0 then
      let storedQuestions := getQuestionsFor db pdf.id
      let bp := (storedQuestions.map (fun q => q.batchNumber)).dedup.length
      if bp ≥ pdf.batchCount then
        match markPDFComplete db now pdf.id with
        | (db', .ok _) =>
          verifyLoop now rest db' (evs ++ [Event.processingComplete pdf.id
            storedQuestions.length false none false true])
        | (db', .error _) => (db', evs)
      else verifyLoop now rest db evs
    else verifyLoop now rest db evs

/-- `verifyProcessingCompletion` over the `getAllActivePDFs` snapshot
(the queue is empty when it runs). -/
def verifyProcessingCompletion (now : Nat) (db : DBState) : DBState × List Event :=
  verifyLoop now (db.pdfs.filter (fun p => !p.isComplete)) db []

/-- One complete background drain (`processQueue`,
batch-processor.js:425-587): the while loop over the queued items
followed by the fallback completion verification. -/
def processQueue (outcomes : Nat → Except Unit (Option (List NormQ)) × Nat)
    (items : List SchedItem) (s : SchedState) : SchedState :=
  let s' := drainLoop outcomes 0 items s
  let (db', evs) := verifyProcessingCompletion s'.clock s'.db
  { s' with db := db', events := s'.events ++ evs }

/-! #### Rate limiting (claim C4)

`enforceRateLimit` stores the PRE-wait timestamp (`this.lastRequestTime =
now` runs after the `setTimeout`, but `now` was read before it), so after
one waited call the next elapsed-time check passes immediately: with
instantaneous oracle responses starting at t = 100000 ms, the three queued
calls fire at 100000, 105000 and 105000 — the gap between the 2nd and 3rd
is 0 ms, not ≥ 5000 ms as the comment `5 seconds between requests
(12 RPM)` and the spec require. -/

def itemsC4 : List SchedItem :=
  [⟨{ content := .text "u2".toList, batchNumber := 2, isFirstBatch := false }, "p4", 5⟩,
   ⟨{ content := .text "u3".toList, batchNumber := 3, isFirstBatch := false }, "p4", 5⟩,
   ⟨{ content := .text "u4".toList, batchNumber := 4, isFirstBatch := false }, "p4", 5⟩]

def outcomesC4 : Nat → Except Unit (Option (List NormQ)) × Nat :=
  fun _ => (.ok (some []), 0)

def sC4 : SchedState :=
  { db := { pdfs := [], questions := [] }, clock := 100000,
    lastRequestTime := none, events := [], callTimes := [] }

/-- Does every pair of consecutive oracle-call start times respect the
minimum interval? -/
def gapsOK (delay : Nat) : List Nat → Bool
  | a :: b :: rest => decide (a + delay ≤ b) && gapsOK delay (b :: rest)
  | _ => true

/-- C4: the rate-limit guarantee fails on the code.  Draining three queued
units with instantaneous responses yields oracle-call start times
`[100000, 105000, 105000]`: consecutive calls 2 and 3 are 0 ms apart,
violating the claimed ≥ 5000 ms spacing. -/
theorem rateLimit_gap_violation :
    (processQueue outcomesC4 itemsC4 sC4).callTimes = [100000, 105000, 105000] ∧
    gapsOK 5000 (processQueue outcomesC4 itemsC4 sC4).callTimes = false := by
  constructor
  · rfl
  · rfl

/-! #### Failure-tolerant completion (claim C5)

Unit 3 of 4 yields an empty list; units 2 and 4 succeed.  The scheduler
does reach `complete` after unit 4 — but the "processing complete" event
does NOT carry an error flag: `hasErrors: true` is only ever attached on
the exception path (timeout/storage failure of the FINAL unit), never for
an empty non-final unit. -/

def nqC5 (t : String) : NormQ :=
  { question := .str t, options := [.str "A", .str "B", .str "C", .str "D"],
    correctAnswer := 0, explanation := .str "x" }

def q1C5 : QuestionRecord :=
  { id := "p5_1", pdfId := "p5", questionId := 1, batchNumber := 1,
    question := .str "Q1", options := [.str "A", .str "B", .str "C", .str "D"],
    correctAnswer := 0, explanation := .str "e", createdDate := 0, source := "ai" }

def pdfC5 : PDFRecord :=
  { id := "p5", filename := "d.pdf", fileSize := 100, uploadDate := 0, lastAccessed := 0,
    textContent := some "t", totalQuestions := 1, isComplete := false,
    processingStatus := "processing", batchCount := 4, completedBatches := 1 }

def itemsC5 : List SchedItem :=
  [⟨{ content := .text "u2".toList, batchNumber := 2, isFirstBatch := false }, "p5", 4⟩,
   ⟨{ content := .text "u3".toList, batchNumber := 3, isFirstBatch := false }, "p5", 4⟩,
   ⟨{ content := .text "u4".toList, batchNumber := 4, isFirstBatch := false }, "p5", 4⟩]

def outcomesC5 : Nat → Except Unit (Option (List NormQ)) × Nat :=
  fun k =>
    if k = 0 then (.ok (some [nqC5 "Q2"]), 0)
    else if k = 1 then (.ok (some []), 0)
    else (.ok (some [nqC5 "Q4"]), 0)

def sC5 : SchedState :=
  { db := { pdfs := [pdfC5], questions := [q1C5] }, clock := 1000,
    lastRequestTime := none, events := [], callTimes := [] }

def finalC5 : SchedState := processQueue outcomesC5 itemsC5 sC5

def isProcessingComplete : Event → Bool
  | .processingComplete _ _ _ _ _ _ => true
  | _ => false

def eventHasErrorFlag : Event → Bool
  | .processingComplete _ _ hasErrors _ _ _ => hasErrors
  | _ => false

/-- C5, counterexample: with unit 3 of 4 yielding an empty list, the
scheduler reaches `complete`, a "processing complete" event fires — and
no emitted event carries the error flag, contradicting the claim that the
completion event does. -/
theorem scheduler_empty_unit_cex :
    (lookupPDF finalC5.db "p5").map (fun p => p.isComplete) = some true ∧
    finalC5.events.any isProcessingComplete = true ∧
    finalC5.events.all (fun e => !eventHasErrorFlag e) = true := by
  decide

/-- C5, amended: with unit 3 of 4 yielding an empty list, the scheduler
still reaches `complete` after processing unit 4, and the "processing
complete" event fires WITHOUT an error flag (the flag is attached only
when processing of the final unit itself throws, e.g. a timeout). -/
theorem scheduler_empty_unit_amended :
    (lookupPDF finalC5.db "p5").map (fun p => (p.isComplete, p.processingStatus))
      = some (true, "complete") ∧
    Event.processingComplete "p5" 3 false none false false ∈ finalC5.events := by
  decide

/-! ### The orchestrator (`processPDFInBatches`,
batch-processor.js:162-291; claim C1)

`generatePDFHash` is `crypto.subtle.digest` (a host builtin) over the
content string; it enters as a function parameter `hash` — determinism of
the digest is what makes the same content map to the same id.  `new Date`
is `now`.  The returned tuple carries the post-state, the function result
(`.error` = the rethrown exception after a `processingError` emission,
`none` = the cancelled-`null` return), the number of oracle calls made
synchronously, the emitted events, and the work units handed to the
background scheduler. -/

structure PDFFile where
  name : String
  size : Nat
deriving Repr

inductive ContentInput where
  | text (s : List Char)
  | images (pages : List String)
deriving Repr

/-- The id computed at batch-processor.js:180-182: hash of the text
content, or of `` `${name}-${size}` `` for an image sequence. -/
def contentKey (hash : List Char → String) (file : PDFFile) : ContentInput → String
  | .text s => hash s
  | .images _ => hash (file.name ++ "-" ++ toString file.size).toList

/-- What the orchestrator returns to its caller. -/
inductive ReturnedQuestions where
  | stored (records : List QuestionRecord)
  | fresh (records : List NormQ)
deriving Repr

structure SubmitResult where
  pdfId : String
  questions : ReturnedQuestions
  fromCache : Bool
deriving Repr

/-- The chunk list of batch-processor.js:206-218: one unit per page image,
else the text planner. -/
def planChunks : ContentInput → List WorkChunk
  | .images pages =>
    pages.enum.map (fun p =>
      { content := .image p.2, batchNumber := p.1 + 1, isFirstBatch := p.1 = 0 })
  | .text s => (createTextChunks s).map toWorkChunk

/-- `processPDFInBatches` (batch-processor.js:162-291). -/
def processPDFInBatches (hash : List Char → String) (O : AIOracle) (now : Nat)
    (file : PDFFile) (content : ContentInput) (st : DBState) :
    DBState × Except Unit (Option SubmitResult) × Nat × List Event × List SchedItem :=
  let pdfId := contentKey hash file content
  let (st1, existingPDF) := getPDF st now pdfId
  match existingPDF with
  | some pdf =>
    if pdf.isComplete then
      -- cache hit: return all stored records, no oracle call, nothing queued
      let questions := getQuestionsFor st1 pdfId
      (st1, .ok (some { pdfId := pdfId, questions := .stored questions, fromCache := true }),
       0, [Event.cacheHit pdfId], [])
    else processMiss O now file content st1 pdfId
  | none => processMiss O now file content st1 pdfId
where
  /-- The cache-miss path: plan chunks, persist the initial document
  record, run the first unit synchronously, then queue the rest (or mark
  complete for a single-unit plan).  Any thrown error is caught at
  batch-processor.js:286-290: a `processingError` event plus a rethrow. -/
  processMiss (O : AIOracle) (now : Nat)
      (file : PDFFile) (content : ContentInput) (st1 : DBState) (pdfId : String) :
      DBState × Except Unit (Option SubmitResult) × Nat × List Event × List SchedItem :=
    let chunks := planChunks content
    let totalBatches := chunks.length
    let (st2, _) := storePDF st1 now
      { id := pdfId, filename := file.name, fileSize := file.size,
        textContent := match content with
                       | .text s => some (String.mk s)
                       | .images _ => none,
        totalQuestions := 0, isComplete := false, processingStatus := "processing",
        batchCount := totalBatches, completedBatches := 0 }
    match chunks with
    | [] =>
      -- `chunks[0]` is undefined: the first property access on it throws,
      -- reaching the outer catch before any oracle call
      (st2, .error (), 0, [Event.processingError], [])
    | firstBatch :: restChunks =>
      match processChunkWithAI false O firstBatch with
      | some qs =>
        if qs.length > 0 then
          match storeQuestions st2 now pdfId (qs.map normQToStoreInput) 1 with
          | (st3, .error _) => (st3, .error (), 1, [Event.processingError], [])
          | (st3, .ok _) =>
            match updatePDFProgress st3 now pdfId 1 with
            | (st4, .error _) => (st4, .error (), 1, [Event.processingError], [])
            | (st4, .ok _) =>
              let ev1 := [Event.firstBatchReady pdfId qs.length]
              if restChunks.length > 0 then
                (st4, .ok (some { pdfId := pdfId, questions := .fresh qs, fromCache := false }),
                 1, ev1,
                 restChunks.map (fun c =>
                   { chunk := c, pdfId := pdfId, totalBatches := totalBatches }))
              else
                match markPDFComplete st4 now pdfId with
                | (st5, .error _) => (st5, .error (), 1, ev1 ++ [Event.processingError], [])
                | (st5, .ok _) =>
                  (st5,
                   .ok (some { pdfId := pdfId, questions := .fresh qs, fromCache := false }),
                   1, ev1 ++ [Event.processingComplete pdfId qs.length false none false false],
                   [])
        else
          -- `throw new Error("First batch generated no questions…")`
          (st2, .error (), 1, [Event.processingError], [])
      | none => (st2, .error (), 1, [Event.processingError], [])

/-- C1: cache idempotence.  If the store already holds a COMPLETE document
record under the fingerprint of the submitted content — i.e. a first
submission of this content ran to `complete` — then a second submission
returns exactly the stored question records with `fromCache = true`,
makes zero oracle calls, queues nothing, and only touches the
`lastAccessed` timestamp. -/
theorem processPDFInBatches_cache_idempotent (hash : List Char → String) (O : AIOracle)
    (now : Nat) (file : PDFFile) (content : ContentInput) (st : DBState) (pdf : PDFRecord)
    (hlook : lookupPDF st (contentKey hash file content) = some pdf)
    (hcomplete : pdf.isComplete = true) :
    processPDFInBatches hash O now file content st =
      ({ st with pdfs := upsertPDF { pdf with lastAccessed := now } st.pdfs },
       .ok (some { pdfId := contentKey hash file content,
                   questions := .stored (getQuestionsFor st (contentKey hash file content)),
                   fromCache := true }),
       0, [Event.cacheHit (contentKey hash file content)], []) := by
  simp only [processPDFInBatches, getPDF, hlook, hcomplete, if_true]
  rfl

def hashW : List Char → String := fun _ => "h"

def pdfC1 : PDFRecord :=
  { id := "h", filename := "c.pdf", fileSize := 7, uploadDate := 0, lastAccessed := 0,
    textContent := some "quiz text", totalQuestions := 2, isComplete := true,
    processingStatus := "complete", batchCount := 1, completedBatches := 1 }

def qr1C1 : QuestionRecord :=
  { id := "h_1", pdfId := "h", questionId := 1, batchNumber := 1,
    question := .str "Q1", options := [.str "A", .str "B", .str "C", .str "D"],
    correctAnswer := 0, explanation := .str "e1", createdDate := 0, source := "ai" }

def qr2C1 : QuestionRecord :=
  { id := "h_2", pdfId := "h", questionId := 2, batchNumber := 1,
    question := .str "Q2", options := [.str "A", .str "B", .str "C", .str "D"],
    correctAnswer := 1, explanation := .str "e2", createdDate := 0, source := "ai" }

def stC1 : DBState := { pdfs := [pdfC1], questions := [qr2C1, qr1C1] }

theorem processPDFInBatches_cache_idempotent_witness :
    processPDFInBatches hashW failingOracle 42 { name := "c.pdf", size := 7 }
        (.text "quiz text".toList) stC1 =
      ({ stC1 with pdfs := upsertPDF { pdfC1 with lastAccessed := 42 } stC1.pdfs },
       .ok (some { pdfId := contentKey hashW { name := "c.pdf", size := 7 }
                     (.text "quiz text".toList),
                   questions := .stored (getQuestionsFor stC1 "h"),
                   fromCache := true }),
       0, [Event.cacheHit "h"], []) :=
  processPDFInBatches_cache_idempotent hashW failingOracle 42 _ _ stC1 pdfC1 rfl rfl

/-! ### Unit ordinals are the planned ones

Support for the rate at which the pipeline calls `updatePDFProgress`: every
work unit the planner emits carries a 1-based ordinal bounded by the plan
length (`batchCount` is stored as exactly that length), so every
`updatePDFProgress(pdfId, chunk.batchNumber)` call in the orchestrator and
scheduler reports a planned ordinal — the hypothesis under which the C6
invariant theorem applies to the program's own call sequences. -/

def numberedFrom1 (l : List Chunk) : Prop :=
  ∀ j (h : j < l.length), (l[j]).batchNumber = j + 1

theorem numberedFrom1_append {l : List Chunk} {c : Chunk}
    (hl : numberedFrom1 l) (hc : c.batchNumber = l.length + 1) :
    numberedFrom1 (l ++ [c]) := by
  intro j h
  rcases Nat.lt_or_ge j l.length with hj | hj
  · rw [List.getElem_append_left hj]
    exact hl j hj
  · have hj' : j = l.length := by
      simp only [List.length_append, List.length_singleton] at h
      omega
    subst hj'
    rw [List.getElem_append_right (Nat.le_refl _)]
    simpa using hc

theorem cmbLoop_numbering (words : List (List Char)) (w tb : Nat) :
    ∀ fuel i (chunks : List Chunk), numberedFrom1 chunks →
      numberedFrom1 (cmbLoop words w tb fuel i chunks) := by
  intro fuel
  induction fuel with
  | zero => intro i chunks h; exact h
  | succ fuel ih =>
    intro i chunks h
    rw [cmbLoop]
    by_cases hi : i < words.length
    · rw [if_pos hi]
      by_cases hm : 10 * ((words.length : Int) - ((i : Int) + (w : Int))) < 3 * (w : Int)
          ∧ (words.length : Int) - ((i : Int) + (w : Int)) > 0
      · rw [if_pos hm]
        exact numberedFrom1_append h rfl
      · rw [if_neg hm]
        by_cases htb : chunks.length + 1 ≥ tb
        · rw [if_pos htb]
          by_cases hiw : i + w < words.length
          · rw [if_pos hiw]
            exact numberedFrom1_append h rfl
          · rw [if_neg hiw]
            exact numberedFrom1_append h rfl
        · rw [if_neg htb]
          exact ih _ _ (numberedFrom1_append h rfl)
    · rw [if_neg hi]
      exact h

theorem createTextChunks_numbering (s : List Char) :
    numberedFrom1 (createTextChunks s) := by
  have hmb : ∀ e, numberedFrom1 (createMultipleBatches s e) := by
    intro e
    unfold createMultipleBatches
    exact cmbLoop_numbering _ _ _ _ 0 [] (fun j h => by simp at h)
  unfold createTextChunks
  by_cases h1 : estimateQuestionCount s > 20 ∨ s.length > 20000
  · rw [if_pos h1]
    exact hmb _
  · rw [if_neg h1]
    by_cases h2 : s.length < 20000 ∧ estimateQuestionCount s ≤ 10
    · rw [if_pos h2]
      intro j h
      simp only [List.length_singleton] at h
      have hj : j = 0 := by omega
      subst hj
      rfl
    · rw [if_neg h2]
      exact hmb _

/-- Every planned work unit — text chunks and page images alike — carries
a 1-based ordinal bounded by the plan length. -/
theorem planChunks_ordinals (content : ContentInput) :
    ∀ c ∈ planChunks content, 1 ≤ c.batchNumber ∧ c.batchNumber ≤ (planChunks content).length := by
  intro c hc
  rcases List.mem_iff_getElem.mp hc with ⟨j, hj, hget⟩
  match content with
  | .images pages =>
    subst hget
    simp only [planChunks, List.getElem_map, List.getElem_enum]
    have : j < pages.length := by simpa [planChunks] using hj
    constructor
    · omega
    · simp [planChunks]
      omega
  | .text s =>
    subst hget
    have hnum := createTextChunks_numbering s
    have hjlen : j < (createTextChunks s).length := by simpa [planChunks] using hj
    have := hnum j hjlen
    simp only [planChunks, List.getElem_map, toWorkChunk]
    constructor
    · simp [this]
    · simp only [List.length_map]
      simp [this]
      omega

end DidExit
